import Mathlib

/-!
Shallow embedding of `src/tree.cpp` (a lazy box-drawing directory tree
printer).  The OS surface (fstatat, openat/fdopendir, readdir) is modelled
by an abstract filesystem tree `FsTree`: each node records the outcome the
corresponding syscall would produce for it (a stat result, an optional
directory-open failure, an optional readdir failure at the end of its
listing, and the raw dirent sequence with payloads).  Error strings stand
for the already-formatted `sys_err_str` output ("who: (errno) message").

The shared `DIR*` stream mutated by `iter_t::operator++` is threaded
explicitly as a `RawStream` value next to each iterator.
-/

namespace SparkyTree

/-- Model of `err_t`: a captured error message. -/
structure err_t where
  str : String
deriving Repr, DecidableEq

/-- Model of the global `OutputTerminal` flag.  `main` sets it from
`isatty(1)`; for the core rendering semantics we fix the non-terminal
case (no colour escapes), as in redirected output. -/
def OutputTerminal : Bool := false

/-- Model of `operator<<(std::ostream&, const err_t&)`. -/
def err_t.display (e : err_t) : String :=
  (if OutputTerminal then "\x1b[1;31m" else "")
    ++ "(error: " ++ e.str ++ ")"
    ++ (if OutputTerminal then "\x1b[0m" else "")

/-- Kind of a filesystem object, as far as `S_ISDIR` on an
`AT_SYMLINK_NOFOLLOW` stat can tell.  A symlink records whether its
target is a directory, but its own lstat mode is `S_IFLNK` either way. -/
inductive NodeKind where
  | directory
  | regular
  | symlinkToDir
  | symlinkToFile
deriving Repr, DecidableEq

/-- Mode bits `fstatat(..., AT_SYMLINK_NOFOLLOW)` reports for each kind
(`st_mode & S_IFMT`): the stat never follows symlinks, so a symlink
reports `S_IFLNK` regardless of its target. -/
def lstat_mode : NodeKind → Nat
  | .directory => 0x4000
  | .regular => 0x8000
  | .symlinkToDir => 0xA000
  | .symlinkToFile => 0xA000

/-- Model of the `S_ISDIR` macro: `(m & S_IFMT) == S_IFDIR`. -/
def S_ISDIR (m : Nat) : Bool := m &&& 0xF000 == 0x4000

/-- Abstract filesystem node: the outcomes the syscalls would produce.
`statErr`/`openErr`/`readErr` hold already-formatted `sys_err_str`
messages; `children` is the raw dirent sequence in the directory
stream's native order (it may contain "." and ".." entries; each name
is paired with the node it resolves to). -/
inductive FsTree where
  | mk (kind : NodeKind) (statErr openErr readErr : Option err_t)
       (children : List (String × FsTree)) : FsTree

def FsTree.kind : FsTree → NodeKind
  | .mk k _ _ _ _ => k

def FsTree.statErr : FsTree → Option err_t
  | .mk _ se _ _ _ => se

def FsTree.openErr : FsTree → Option err_t
  | .mk _ _ oe _ _ => oe

def FsTree.readErr : FsTree → Option err_t
  | .mk _ _ _ re _ => re

def FsTree.children : FsTree → List (String × FsTree)
  | .mk _ _ _ _ ch => ch

/-- State of one open `DIR*` stream: the raw dirents not yet consumed by
`readdir`, and the pending read failure (if any) that `readdir` reports
(null return with `errno ≠ 0`) once the entries are exhausted.  After
the failure has been reported once, further `readdir` calls return a
plain end-of-stream (null with `errno == 0`). -/
structure RawStream where
  entries : List (String × FsTree)
  readErr : Option err_t

/-- Model of `file_t`: one named entry.  `node` stands for the filesystem
object that `name`, resolved relative to the `at` descriptor, denotes;
`mode` and `err_` are filled by the constructor's `fstatat` call. -/
structure file_t where
  node : FsTree
  name : String
  mode : Nat
  err_ : Option err_t

/-- Model of the `file_t(shared_fd at_, const std::string& name)`
constructor: an `AT_SYMLINK_NOFOLLOW` stat that either records the mode
or captures the error (leaving `mode` at its initializer `0`). -/
def file_t.construct (node : FsTree) (name : String) : file_t :=
  match node.statErr with
  | some e => { node := node, name := name, mode := 0, err_ := some e }
  | none => { node := node, name := name, mode := lstat_mode node.kind, err_ := none }

/-- Model of `file_t::error()`. -/
def file_t.error (f : file_t) : Option err_t := f.err_

/-- Model of `file_t::is_dir()`: `!err_ && S_ISDIR(mode)`. -/
def file_t.is_dir (f : file_t) : Bool := f.err_.isNone && S_ISDIR f.mode

/-- Model of `operator<<(std::ostream&, const file_t&)`: the name,
followed by the inline error when one was captured. -/
def file_t.display (f : file_t) : String :=
  f.name ++ (match f.err_ with
             | some e => " " ++ err_t.display e
             | none => "")

/-- Model of `directory_t`: result of opening a directory for listing.
`dir = none` models the null `shared_dir`. -/
structure directory_t where
  dir : Option RawStream
  error : Option err_t

/-- Model of `file_t::open_as_dir`: `openat` + `fdopendir`.  On failure
(either call) the result carries only the error; on success it carries
the fresh stream positioned at the start of the raw listing. -/
def open_as_dir (node : FsTree) : directory_t :=
  match node.openErr with
  | some e => { dir := none, error := some e }
  | none => { dir := some { entries := node.children, readErr := node.readErr }, error := none }

/-- Model of `iter_t`'s per-iterator fields.  The shared stream state is
threaded separately (see `RawStream`); `hasStream` models
`dir.dir != nullptr`, and `dirError` models `dir.error`.  `d_ent` is the
current dirent: its name is `d_name`, and the paired node is what the
name resolves to in the directory (used by `operator*`, which stats the
name through a duplicate of the directory's descriptor). -/
structure iter_t where
  hasStream : Bool
  dirError : Option err_t
  d_ent : Option (String × FsTree)
  err_ : Option err_t

/-- Model of the default-constructed `iter_t()` (the canonical end). -/
def iter_end : iter_t :=
  { hasStream := false, dirError := none, d_ent := none, err_ := none }

/-- The `d_name` optional of an iterator. -/
def iter_t.d_name (it : iter_t) : Option String := it.d_ent.map Prod.fst

/-- Model of `iter_t::error()`: the source returns `dir.error` (the
directory-open error), not the iterator's own `err_` field. -/
def iter_t.error (it : iter_t) : Option err_t := it.dirError

/-- Model of `operator==(const iter_t&, const iter_t&)`: compares the
`d_name` optionals only. -/
def iter_beq (a b : iter_t) : Bool := a.d_name == b.d_name

/-- Recursion of the readdir skip loop over the raw dirent list. -/
def readSkipGo :
    List (String × FsTree) → Option err_t →
      Option (String × FsTree) × Option err_t × RawStream
  | [], re => (none, re, ⟨[], none⟩)
  | (n, c) :: rest, re =>
    if n == "." || n == ".." then readSkipGo rest re
    else (some (n, c), none, ⟨rest, re⟩)

/-- Model of the `do { entry = readdir(...) } while (entry && dot)` skip
loop: returns the first non-"." / non-".." dirent (with its payload),
the `errno`-carried failure when the stream ends in a read error, and
the remaining stream. -/
def readSkip (s : RawStream) :
    Option (String × FsTree) × Option err_t × RawStream :=
  readSkipGo s.entries s.readErr

/-- Model of `iter_t::operator++`: throws (`Except.error`) on a null
stream; on a readdir failure it records `err_` and returns early
without touching `d_name`; otherwise it stores the dirent found (or
`none` at clean exhaustion). -/
def iter_succ (it : iter_t) (s : RawStream) : Except String (iter_t × RawStream) :=
  if !it.hasStream then .error "++ on null dir"
  else
    match readSkip s with
    | (none, some e, s') => .ok ({ it with err_ := some e }, s')
    | (entry, _, s') => .ok ({ it with d_ent := entry }, s')

/-- Model of the `iter_t(shared_fd, directory_t)` constructor: `err_` is
initialized from the open result's error, and only when that is absent
is the iterator advanced once. -/
def iter_make (d : directory_t) : Except String (iter_t × RawStream) :=
  let it : iter_t :=
    { hasStream := d.dir.isSome, dirError := d.error, d_ent := none, err_ := d.error }
  let s := d.dir.getD ⟨[], none⟩
  if it.err_.isNone then iter_succ it s else .ok (it, s)

/-- Outcome of `iter_t::operator*`. -/
inductive derefRes where
  | ok (f : file_t)
  | nullStream
  | badOptional

/-- Model of `iter_t::operator*`: the source first evaluates
`dirfd(dir.dir->dir)` — on the canonical end iterator `dir.dir` is a
null `shared_ptr`, so this is a null dereference (undefined behaviour,
modelled as `nullStream`) — and only then calls `d_name.value()`, which
throws `bad_optional_access` when `d_name` is empty (`badOptional`).
On success it stats the current name through a duplicated descriptor,
yielding a fresh `file_t`. -/
def iter_deref (it : iter_t) : derefRes :=
  if !it.hasStream then .nullStream
  else
    match it.d_ent with
    | none => .badOptional
    | some (n, c) => .ok (file_t.construct c n)

/-- Model of `file_t::begin()`: the end iterator for non-directories,
otherwise an iterator constructed from `open_as_dir`. -/
def file_t.begin (f : file_t) : Except String (iter_t × RawStream) :=
  if !f.is_dir then .ok (iter_end, ⟨[], none⟩)
  else iter_make (open_as_dir f.node)

/-- Model of `file_t::end()`. -/
def file_t.endI (_ : file_t) : iter_t := iter_end

theorem one_le_sizeOf_option {α : Type} [SizeOf α] (o : Option α) : 1 ≤ sizeOf o := by
  cases o <;> simp

theorem one_le_sizeOf_prod {α β : Type} [SizeOf α] [SizeOf β] (p : α × β) : 1 ≤ sizeOf p := by
  cases p; simp; omega

theorem one_le_sizeOf_err (e : err_t) : 1 ≤ sizeOf e := by
  cases e; simp

/-- Size bound on the skip loop: it only consumes the stream. -/
theorem readSkip_sizeOf :
    ∀ (l : List (String × FsTree)) (re : Option err_t),
      sizeOf (readSkip ⟨l, re⟩).2.2 + sizeOf (readSkip ⟨l, re⟩).1
        + sizeOf (readSkip ⟨l, re⟩).2.1 ≤ sizeOf (RawStream.mk l re) + 2 := by
  intro l
  induction l with
  | nil => intro re; simp [readSkip, readSkipGo]; omega
  | cons p rest ih =>
    intro re
    obtain ⟨n, c⟩ := p
    simp only [readSkip, readSkipGo]
    by_cases h : (n == "." || n == "..") = true
    · rw [if_pos h]
      have := ih re
      simp only [readSkip] at this
      simp at this ⊢
      omega
    · rw [if_neg h]
      simp
      omega

/-- A successful advance shrinks the stream-plus-current-entry measure,
provided the iterator held a current entry. -/
theorem iter_succ_size {it it' : iter_t} {s s' : RawStream}
    (h : iter_succ it s = .ok (it', s')) (p : String × FsTree)
    (hp : it.d_ent = some p) :
    sizeOf s' + sizeOf it'.d_ent < sizeOf s + sizeOf it.d_ent := by
  unfold iter_succ at h
  by_cases hst : (!it.hasStream) = true
  · rw [if_pos hst] at h
    exact absurd h (by simp)
  · rw [if_neg hst] at h
    have hsz := readSkip_sizeOf s.entries s.readErr
    rcases hr : readSkip s with ⟨ent, eo, s2⟩
    have hs2 : readSkip ⟨s.entries, s.readErr⟩ = (ent, eo, s2) := by
      cases s; exact hr
    rw [hs2] at hsz
    simp only at hsz
    have hs' : (RawStream.mk s.entries s.readErr) = s := by cases s; rfl
    rw [hs'] at hsz
    rw [hr] at h
    have hee := one_le_sizeOf_err
    cases ent with
    | none =>
      cases eo with
      | some e =>
        simp only [Except.ok.injEq, Prod.mk.injEq] at h
        obtain ⟨hit, hss⟩ := h
        subst hit hss
        have h1 : 1 ≤ sizeOf e := one_le_sizeOf_err e
        simp at hsz ⊢
        omega
      | none =>
        simp only [Except.ok.injEq, Prod.mk.injEq] at h
        obtain ⟨hit, hss⟩ := h
        subst hit hss
        have h1 : 1 ≤ sizeOf p := one_le_sizeOf_prod p
        simp [hp] at hsz ⊢
        omega
    | some q =>
      simp only [Except.ok.injEq, Prod.mk.injEq] at h
      obtain ⟨hit, hss⟩ := h
      subst hit hss
      have h1 : 1 ≤ sizeOf p := one_le_sizeOf_prod p
      have h2 : 1 ≤ sizeOf eo := one_le_sizeOf_option eo
      simp [hp] at hsz ⊢
      omega

/-- Drive an iterator with repeated `operator++` until its `d_name`
becomes empty (i.e. it compares equal to the canonical end), collecting
the names produced; this is the `begin()`-to-`end()` consumption
protocol.  Also returns the final iterator state.  A thrown advance
(null stream) stops the drive. -/
def iterDrain (it : iter_t) (s : RawStream) : List String × iter_t :=
  match hd : it.d_ent with
  | none => ([], it)
  | some (n, _) =>
    match hs : iter_succ it s with
    | .error _ => ([n], it)
    | .ok (it', s') =>
      let r := iterDrain it' s'
      (n :: r.1, r.2)
termination_by sizeOf s + sizeOf it.d_ent
decreasing_by
  exact iter_succ_size hs _ hd

theorem nodeKind_sizeOf (k : NodeKind) : sizeOf k = 1 := by
  cases k <;> rfl

theorem one_le_sizeOf_list {α : Type} [SizeOf α] (l : List α) : 1 ≤ sizeOf l := by
  cases l <;> simp <;> omega

theorem fsTree_lower (t : FsTree) :
    4 + sizeOf t.readErr + sizeOf t.children ≤ sizeOf t := by
  cases t with
  | mk k se oe re ch =>
    simp [FsTree.readErr, FsTree.children, nodeKind_sizeOf]
    have h1 := one_le_sizeOf_option se
    have h2 := one_le_sizeOf_option oe
    omega

theorem six_le_sizeOf_fsTree (t : FsTree) : 6 ≤ sizeOf t := by
  have h0 := fsTree_lower t
  have h1 := one_le_sizeOf_option t.readErr
  have h2 := one_le_sizeOf_list t.children
  omega

/-- A successful advance of a freshly constructed iterator (no current
entry yet) lands within one unit of the stream's size. -/
theorem iter_succ_size_none {it it' : iter_t} {s s' : RawStream}
    (h : iter_succ it s = .ok (it', s')) (hp : it.d_ent = none) :
    sizeOf s' + sizeOf it'.d_ent ≤ sizeOf s + 1 := by
  unfold iter_succ at h
  by_cases hst : (!it.hasStream) = true
  · rw [if_pos hst] at h
    exact absurd h (by simp)
  · rw [if_neg hst] at h
    have hsz := readSkip_sizeOf s.entries s.readErr
    rcases hr : readSkip s with ⟨ent, eo, s2⟩
    have hs2 : readSkip ⟨s.entries, s.readErr⟩ = (ent, eo, s2) := by
      cases s; exact hr
    rw [hs2] at hsz
    have hs' : (RawStream.mk s.entries s.readErr) = s := by cases s; rfl
    rw [hs'] at hsz
    rw [hr] at h
    cases ent with
    | none =>
      cases eo with
      | some e =>
        simp only [Except.ok.injEq, Prod.mk.injEq] at h
        obtain ⟨hit, hss⟩ := h
        subst hit hss
        have h1 : 1 ≤ sizeOf e := one_le_sizeOf_err e
        simp [hp] at hsz ⊢
        omega
      | none =>
        simp only [Except.ok.injEq, Prod.mk.injEq] at h
        obtain ⟨hit, hss⟩ := h
        subst hit hss
        simp at hsz ⊢
        omega
    | some q =>
      simp only [Except.ok.injEq, Prod.mk.injEq] at h
      obtain ⟨hit, hss⟩ := h
      subst hit hss
      have h2 : 1 ≤ sizeOf eo := one_le_sizeOf_option eo
      simp at hsz ⊢
      omega

/-- Whatever `begin()` returns fits strictly below the entry's node in
the size order (the stream holds the node's children only). -/
theorem begin_size {f : file_t} {it : iter_t} {s : RawStream}
    (h : file_t.begin f = .ok (it, s)) :
    sizeOf s + sizeOf it.d_ent < sizeOf f.node := by
  unfold file_t.begin at h
  by_cases hd : (!f.is_dir) = true
  · rw [if_pos hd] at h
    simp only [Except.ok.injEq, Prod.mk.injEq] at h
    obtain ⟨h1, h2⟩ := h
    subst h1 h2
    have h6 := six_le_sizeOf_fsTree f.node
    simp [iter_end]
    omega
  · rw [if_neg hd] at h
    cases hoe : f.node.openErr with
    | some e =>
      simp [iter_make, open_as_dir, hoe] at h
      obtain ⟨h1, h2⟩ := h
      subst h1 h2
      have h6 := six_le_sizeOf_fsTree f.node
      simp
      omega
    | none =>
      simp [iter_make, open_as_dir, hoe] at h
      have hb := iter_succ_size_none h rfl
      have hlo := fsTree_lower f.node
      simp at hb
      omega

@[simp]
theorem construct_node (c : FsTree) (n : String) : (file_t.construct c n).node = c := by
  cases h : c.statErr <;> simp [file_t.construct, h]

/-- Accumulated ancestor glyphs: the `for (int l : lines)` loop. -/
def lineGlyphs (lines : List Bool) : String :=
  lines.foldl (fun acc l => acc ++ (if l then "│   " else "    ")) ""

/-- The `print_rec` template instantiated at `err_t` (the synthetic
error child): `err_t` exposes no `begin`/`end`, so the `if constexpr`
branch — and with it the trailing newline — is skipped. -/
def print_rec_err (node : err_t) (lines : List Bool) (first last : Bool)
    (depth : Int) : String :=
  if depth == 0 then ""
  else
    lineGlyphs lines
      ++ (if !first then (if last then "└── " else "├── ") else "")
      ++ err_t.display node

mutual

/-- The `print_rec` template instantiated at `file_t`.  Returns the text
written to `out`; `Except.error` models an escaped C++ exception (or the
undefined null-stream dereference in `operator*`). -/
def print_rec (node : file_t) (lines : List Bool) (first last : Bool)
    (depth : Int) : Except String String :=
  if depth == 0 then .ok ""
  else
    let depth' : Int := if depth == -1 then -1 else depth - 1
    let head :=
      lineGlyphs lines
        ++ (if !first then (if last then "└── " else "├── ") else "")
        ++ file_t.display node
    let lines' := if !first then lines ++ [!last] else lines
    match hb : file_t.begin node with
    | .error msg => .error msg
    | .ok (it0, s0) =>
      let inlineErr : String :=
        match iter_t.error it0 with
        | some e => " " ++ err_t.display e
        | none => ""
      let it1 := if (iter_t.error it0).isSome then iter_end else it0
      match renderLoop it1 iter_end s0 lines' depth' with
      | .error msg => .error msg
      | .ok (bodyOut, itF, nextF) =>
        let tailOut : String :=
          match iter_t.error itF with
          | some e => print_rec_err e lines' false (iter_beq nextF iter_end) depth'
          | none => ""
        .ok (head ++ inlineErr ++ "\n" ++ bodyOut ++ tailOut)
termination_by sizeOf node.node
decreasing_by
  simp_wf
  have hbs := begin_size hb
  have h1 := one_le_sizeOf_option it0.d_ent
  split
  · simp [iter_end]
    omega
  · omega

/-- The `for (; it != end && !it.error(); it = next)` loop of
`print_rec`, with the shared `DIR*` state threaded through.  Returns
the text the loop wrote plus the final values of `it` and `next` (the
latter feeds the post-loop synthetic-error-child branch). -/
def renderLoop (it next : iter_t) (s : RawStream) (lines : List Bool)
    (depth : Int) : Except String (String × iter_t × iter_t) :=
  match hd : it.d_ent, iter_t.error it with
  | some (n, c), none =>
    match hs : iter_succ it s with
    | .error msg => .error msg
    | .ok (next', s') =>
      if !it.hasStream then .error "deref of null dir stream"
      else
        match print_rec (file_t.construct c n) lines false
            (iter_beq next' iter_end) depth with
        | .error msg => .error msg
        | .ok childOut =>
          match renderLoop next' next' s' lines depth with
          | .error msg => .error msg
          | .ok (restOut, itF, nextF) => .ok (childOut ++ restOut, itF, nextF)
  | _, _ => .ok ("", it, next)
termination_by sizeOf s + sizeOf it.d_ent
decreasing_by
  · simp_wf
    simp [hd]
    omega
  · exact iter_succ_size hs _ hd

end

/-- Model of `print`: render one root with an empty ancestor stack. -/
def print (node : file_t) (depth : Int) : Except String String :=
  print_rec node [] true true depth

/-- Model of `main`'s depth adjustment: a user-supplied limit `d ≠ -1`
is incremented before printing (the root's line is depth-exempt). -/
def main_depth (depth : Int) : Int := if depth != -1 then depth + 1 else depth

/-! Unfolding lemmas for the well-founded renderer definitions. -/

theorem renderLoop_stop_none {it : iter_t} (next : iter_t) (s : RawStream)
    (lines : List Bool) (depth : Int) (h : it.d_ent = none) :
    renderLoop it next s lines depth = .ok ("", it, next) := by
  rw [renderLoop.eq_def]
  split
  · rename_i n c hd he
    rw [h] at hd
    exact absurd hd (by simp)
  · rfl

theorem renderLoop_stop_err {it : iter_t} {e : err_t} (next : iter_t) (s : RawStream)
    (lines : List Bool) (depth : Int) (h : iter_t.error it = some e) :
    renderLoop it next s lines depth = .ok ("", it, next) := by
  rw [renderLoop.eq_def]
  split
  · rename_i n c hd he
    rw [h] at he
    exact absurd he (by simp)
  · rfl

theorem renderLoop_go {it next' : iter_t} {s s' : RawStream} {n : String} {c : FsTree}
    (next : iter_t) (lines : List Bool) (depth : Int)
    (h1 : it.d_ent = some (n, c)) (h2 : iter_t.error it = none)
    (h3 : it.hasStream = true) (h4 : iter_succ it s = .ok (next', s')) :
    renderLoop it next s lines depth =
      match print_rec (file_t.construct c n) lines false (iter_beq next' iter_end) depth with
      | .error msg => .error msg
      | .ok childOut =>
        match renderLoop next' next' s' lines depth with
        | .error msg => .error msg
        | .ok (restOut, itF, nextF) => .ok (childOut ++ restOut, itF, nextF) := by
  rw [renderLoop.eq_def]
  split
  · rename_i n' c' hd he
    rw [h1] at hd
    injection hd with hd
    injection hd with hdn hdc
    subst hdn hdc
    split
    · rename_i msg hs
      rw [h4] at hs
      exact absurd hs (by simp)
    · rename_i next'' s'' hs
      rw [h4] at hs
      injection hs with hs
      injection hs with hsn hss
      subst hsn hss
      rw [if_neg (by simp [h3])]
  · rename_i hcatch
    exact absurd (hcatch n c) (by simp [h1, h2])

theorem print_rec_go {node : file_t} (lines : List Bool) (first last : Bool)
    (depth : Int) (h0 : depth ≠ 0) :
    print_rec node lines first last depth =
      (let depth' : Int := if depth == -1 then -1 else depth - 1
       let head :=
         lineGlyphs lines
           ++ (if !first then (if last then "└── " else "├── ") else "")
           ++ file_t.display node
       let lines' := if !first then lines ++ [!last] else lines
       match file_t.begin node with
       | .error msg => .error msg
       | .ok (it0, s0) =>
         let inlineErr : String :=
           match iter_t.error it0 with
           | some e => " " ++ err_t.display e
           | none => ""
         let it1 := if (iter_t.error it0).isSome then iter_end else it0
         match renderLoop it1 iter_end s0 lines' depth' with
         | .error msg => .error msg
         | .ok (bodyOut, itF, nextF) =>
           let tailOut : String :=
             match iter_t.error itF with
             | some e => print_rec_err e lines' false (iter_beq nextF iter_end) depth'
             | none => ""
           .ok (head ++ inlineErr ++ "\n" ++ bodyOut ++ tailOut)) := by
  rw [print_rec.eq_def, if_neg (by simp [h0])]
  cases hb : file_t.begin node <;> rfl

theorem print_rec_depth0 (node : file_t) (lines : List Bool) (first last : Bool) :
    print_rec node lines first last 0 = .ok "" := by
  rw [print_rec.eq_def]
  rfl

/-! Invariant lemmas about iterator construction and advance. -/

/-- An advance never touches the stream handle or the open error. -/
theorem iter_succ_fields {it it' : iter_t} {s s' : RawStream}
    (h : iter_succ it s = .ok (it', s')) :
    it'.hasStream = it.hasStream ∧ it'.dirError = it.dirError := by
  unfold iter_succ at h
  by_cases hst : (!it.hasStream) = true
  · rw [if_pos hst] at h
    exact absurd h (by simp)
  · rw [if_neg hst] at h
    rcases hr : readSkip s with ⟨ent, eo, s2⟩
    rw [hr] at h
    cases ent with
    | none =>
      cases eo with
      | some e =>
        simp only [Except.ok.injEq, Prod.mk.injEq] at h
        obtain ⟨h1, h2⟩ := h
        subst h1
        exact ⟨rfl, rfl⟩
      | none =>
        simp only [Except.ok.injEq, Prod.mk.injEq] at h
        obtain ⟨h1, h2⟩ := h
        subst h1
        exact ⟨rfl, rfl⟩
    | some q =>
      simp only [Except.ok.injEq, Prod.mk.injEq] at h
      obtain ⟨h1, h2⟩ := h
      subst h1
      exact ⟨rfl, rfl⟩

/-- An advance on a live stream never throws. -/
theorem iter_succ_ok {it : iter_t} (s : RawStream) (h : it.hasStream = true) :
    ∃ it' s', iter_succ it s = .ok (it', s') := by
  unfold iter_succ
  rw [if_neg (by simp [h])]
  rcases hr : readSkip s with ⟨ent, eo, s2⟩
  cases ent with
  | none =>
    cases eo with
    | some e => exact ⟨_, _, rfl⟩
    | none => exact ⟨_, _, rfl⟩
  | some q => exact ⟨_, _, rfl⟩

/-- Entering a node never throws: `begin()` always returns. -/
theorem begin_ok (f : file_t) : ∃ it s, file_t.begin f = .ok (it, s) := by
  unfold file_t.begin
  by_cases hd : (!f.is_dir) = true
  · rw [if_pos hd]
    exact ⟨_, _, rfl⟩
  · rw [if_neg hd]
    cases hoe : f.node.openErr with
    | some e =>
      simp [iter_make, open_as_dir, hoe]
    | none =>
      simp only [iter_make, open_as_dir, hoe]
      simp only [Option.isSome_some, Option.isNone_none, if_pos]
      exact iter_succ_ok _ rfl

/-- What `begin()` hands out satisfies the renderer's invariant: a held
current entry implies a live stream, and the open error is only carried
when no entry is held. -/
theorem begin_inv {f : file_t} {it : iter_t} {s : RawStream}
    (h : file_t.begin f = .ok (it, s)) :
    (it.d_ent.isSome = true → it.hasStream = true) := by
  unfold file_t.begin at h
  by_cases hd : (!f.is_dir) = true
  · rw [if_pos hd] at h
    simp only [Except.ok.injEq, Prod.mk.injEq] at h
    obtain ⟨h1, h2⟩ := h
    subst h1
    intro hc
    simp [iter_end] at hc
  · rw [if_neg hd] at h
    cases hoe : f.node.openErr with
    | some e =>
      simp only [iter_make, open_as_dir, hoe] at h
      simp only [Option.isSome_none, Option.isNone_some, if_neg, Bool.false_eq_true,
        not_false_iff, if_false, Except.ok.injEq, Prod.mk.injEq] at h
      obtain ⟨h1, h2⟩ := h
      subst h1
      intro hc
      simp at hc
    | none =>
      simp only [iter_make, open_as_dir, hoe] at h
      simp only [Option.isSome_some, Option.isNone_none, if_pos] at h
      have hf := iter_succ_fields h
      intro _
      rw [hf.1]

/-- Joint soundness of the renderer: `print_rec` always returns
normally, and the child loop — whenever its iterator satisfies the
invariant that a held entry implies a live stream — returns normally
and leaves the directory-open error untouched.  Data-dependent failures
(stat, open, readdir) are carried as values, never raised. -/
theorem render_ok :
    (∀ (node : file_t) (lines : List Bool) (first last : Bool) (depth : Int),
        ∃ out, print_rec node lines first last depth = Except.ok out) ∧
    (∀ (it next : iter_t) (s : RawStream) (lines : List Bool) (depth : Int),
        (it.d_ent.isSome = true → it.hasStream = true) →
        ∃ o itF nextF, renderLoop it next s lines depth = Except.ok (o, itF, nextF) ∧
          itF.dirError = it.dirError) := by
  refine print_rec.mutual_induct
    (fun node lines first last depth =>
      ∃ out, print_rec node lines first last depth = Except.ok out)
    (fun it next s lines depth =>
      (it.d_ent.isSome = true → it.hasStream = true) →
      ∃ o itF nextF, renderLoop it next s lines depth = Except.ok (o, itF, nextF) ∧
        itF.dirError = it.dirError)
    ?_ ?_ ?_ ?_ ?_ ?_ ?_ ?_ ?_ ?_
  · intro node lines first last depth h0
    refine ⟨"", ?_⟩
    have hz : depth = 0 := by
      rcases Int.lt_trichotomy depth 0 with h | h | h
      · simp at h0; omega
      · exact h
      · simp at h0; omega
    rw [hz]
    exact print_rec_depth0 node lines first last
  · intro node lines first last depth h0 a hb
    obtain ⟨it, s, hok⟩ := begin_ok node
    rw [hok] at hb
    exact absurd hb (by simp)
  · intro node lines first last depth h0 depth' lines' it' s' hb it1 msg hloop IH
    have hit1 : it1 = if it'.error.isSome = true then iter_end else it' := rfl
    have hinv : (it1.d_ent.isSome = true → it1.hasStream = true) := by
      rw [hit1]
      by_cases hc : it'.error.isSome = true
      · rw [if_pos hc]
        intro hx
        simp [iter_end] at hx
      · rw [if_neg hc]
        exact begin_inv hb
    obtain ⟨o, itF, nF, hok, _⟩ := IH hinv
    rw [hok] at hloop
    exact absurd hloop (by simp)
  · intro node lines first last depth h0 depth' lines' it' s' hb it1 bodyOut itF nextF hloop IH
    have hd0 : depth ≠ 0 := by
      intro hz
      rw [hz] at h0
      simp at h0
    have hloop' : renderLoop (if it'.error.isSome = true then iter_end else it') iter_end s'
        (if (!first) = true then lines ++ [!last] else lines)
        (if (depth == -1) = true then (-1 : Int) else depth - 1)
        = Except.ok (bodyOut, itF, nextF) := hloop
    rw [print_rec_go lines first last depth hd0]
    simp only [hb]
    simp only [hloop']
    exact ⟨_, rfl⟩
  · intro it next s lines depth n c hd he a hsucc
    intro hinv
    have hstream := hinv (by simp [hd])
    obtain ⟨it', s', hok⟩ := iter_succ_ok s hstream
    rw [hok] at hsucc
    exact absurd hsucc (by simp)
  · intro it next s lines depth n c hd he it' s' hsucc hnost
    intro hinv
    have hstream := hinv (by simp [hd])
    rw [hstream] at hnost
    exact absurd hnost (by simp)
  · intro it next s lines depth n c hd he it' s' hsucc hnost msg hchild IH1
    intro hinv
    obtain ⟨out, hok⟩ := IH1
    rw [hok] at hchild
    exact absurd hchild (by simp)
  · intro it next s lines depth n c hd he it' s' hsucc hnost childOut hchild msg hloop IH1 IH2
    intro hinv
    have hfields := iter_succ_fields hsucc
    have hinv' : (it'.d_ent.isSome = true → it'.hasStream = true) := by
      intro _
      rw [hfields.1]
      exact hinv (by simp [hd])
    obtain ⟨o, itF, nF, hok, _⟩ := IH2 hinv'
    rw [hok] at hloop
    exact absurd hloop (by simp)
  · intro it next s lines depth n c hd he it' s' hsucc hnost childOut hchild bodyOut itF nextF hloop IH1 IH2
    intro hinv
    have hstream := hinv (by simp [hd])
    have hfields := iter_succ_fields hsucc
    have hinv' : (it'.d_ent.isSome = true → it'.hasStream = true) := by
      intro _
      rw [hfields.1]
      exact hstream
    obtain ⟨o, itF', nF', hok, hde⟩ := IH2 hinv'
    rw [hok] at hloop
    simp only [Except.ok.injEq, Prod.mk.injEq] at hloop
    obtain ⟨hb1, hb2, hb3⟩ := hloop
    subst hb1 hb2 hb3
    rw [renderLoop_go next lines depth hd he hstream hsucc]
    simp only [hchild, hok]
    exact ⟨_, _, _, rfl, by rw [hde, hfields.2]⟩
  · intro it next s lines depth hcatch
    intro hinv
    cases hd : it.d_ent with
    | none =>
      exact ⟨"", it, next, renderLoop_stop_none next s lines depth hd, rfl⟩
    | some p =>
      obtain ⟨n, c⟩ := p
      cases he : iter_t.error it with
      | none => exact absurd (hcatch n c hd he) (by simp)
      | some e =>
        exact ⟨"", it, next, renderLoop_stop_err next s lines depth he, rfl⟩

/-- Spec-side description of a directory's real entries: the dirent
names in native order with "." and ".." removed. -/
def realNames (ch : List (String × FsTree)) : List String :=
  (ch.map Prod.fst).filter (fun n => !(n == "." || n == ".."))

/-- A regular file with no errors (test fixture). -/
def leafFile : FsTree := .mk .regular none none none []

/-- A directory whose listing yields two entries and then fails with a
readdir error (test fixture for the mid-stream failure scenario). -/
def errTree : FsTree :=
  .mk .directory none none (some ⟨"readdir: (5) Input/output error"⟩)
    [("e1", leafFile), ("e2", leafFile)]

/-- A directory whose open fails with permission denied (fixture). -/
def openFailDir : FsTree :=
  .mk .directory none (some ⟨"openat: (13) Permission denied"⟩) none []

/-- A directory containing an unopenable subdirectory followed by a
regular sibling (fixture). -/
def parentTree : FsTree :=
  .mk .directory none none none [("bad", openFailDir), ("ok.txt", leafFile)]

/-- The chain `A/B/C/D.txt` below the root `A` (fixture for depth
limiting). -/
def abcdTree : FsTree :=
  .mk .directory none none none
    [("B", .mk .directory none none none
      [("C", .mk .directory none none none
        [("D.txt", leafFile)])])]

/-- An iterator positioned at a last surviving entry while the stream
holds a pending readdir failure (fixture for the erroring advance). -/
def lastEntryIter : iter_t :=
  { hasStream := true, dirError := none, d_ent := some ("e2", leafFile), err_ := none }

/-- The stream state matching `lastEntryIter` (fixture). -/
def failTail : RawStream := ⟨[], some ⟨"readdir: (5) Input/output error"⟩⟩

/-- An iterator that reached clean exhaustion but still holds its
stream, as ordinary consumption leaves it (fixture). -/
def exhaustedIter : iter_t :=
  { hasStream := true, dirError := none, d_ent := none, err_ := none }

/-! Unfolding lemmas for `iterDrain` and clean-stream iteration. -/

theorem iterDrain_stop {it : iter_t} (s : RawStream) (h : it.d_ent = none) :
    iterDrain it s = ([], it) := by
  rw [iterDrain.eq_def]
  split
  · rfl
  · rename_i n c hd
    rw [h] at hd
    exact absurd hd (by simp)

theorem iterDrain_go {it it' : iter_t} {s s' : RawStream} {n : String} {c : FsTree}
    (h1 : it.d_ent = some (n, c)) (h2 : iter_succ it s = .ok (it', s')) :
    iterDrain it s = (n :: (iterDrain it' s').1, (iterDrain it' s').2) := by
  rw [iterDrain.eq_def]
  split
  · rename_i hd
    rw [h1] at hd
    exact absurd hd (by simp)
  · rename_i n' c' hd
    rw [h1] at hd
    injection hd with hd
    injection hd with hn hc
    subst hn hc
    split
    · rename_i msg hs
      rw [h2] at hs
      exact absurd hs (by simp)
    · rename_i it'' s'' hs
      rw [h2] at hs
      injection hs with hs
      injection hs with ha hb
      subst ha hb
      rfl

/-- On a stream with no pending read failure, the skip loop lands on the
first non-dot entry (`List.find?`) and reports no error. -/
theorem readSkip_clean (l : List (String × FsTree)) :
    (readSkip ⟨l, none⟩).1 = l.find? (fun p => !(p.1 == "." || p.1 == "..")) ∧
    (readSkip ⟨l, none⟩).2.1 = none := by
  induction l with
  | nil => exact ⟨rfl, rfl⟩
  | cons p rest ih =>
    obtain ⟨n, c⟩ := p
    simp only [readSkip, readSkipGo]
    by_cases h : (n == "." || n == "..") = true
    · rw [if_pos h]
      rw [List.find?_cons_of_neg _ (by simp [h])]
      simpa only [readSkip] using ih
    · rw [if_neg h]
      rw [List.find?_cons_of_pos _ (by simp [h])]
      exact ⟨rfl, rfl⟩

/-- Driving an iterator over a clean stream collects exactly the real
entry names in native order and never records an error. -/
theorem drain_clean (l : List (String × FsTree)) :
    ∀ (it : iter_t), it.hasStream = true →
      (iterDrain { it with d_ent := (readSkip ⟨l, none⟩).1 }
          (readSkip ⟨l, none⟩).2.2).1 = realNames l ∧
      (iterDrain { it with d_ent := (readSkip ⟨l, none⟩).1 }
          (readSkip ⟨l, none⟩).2.2).2.err_ = it.err_ := by
  induction l with
  | nil =>
    intro it hs
    rw [show readSkip ⟨[], none⟩ = (none, none, ⟨[], none⟩) from rfl]
    rw [iterDrain_stop _ (by simp)]
    exact ⟨rfl, rfl⟩
  | cons p rest ih =>
    obtain ⟨n, c⟩ := p
    intro it hs
    by_cases h : (n == "." || n == "..") = true
    · rw [show readSkip ⟨(n, c) :: rest, none⟩ = readSkip ⟨rest, none⟩ from by
        simp only [readSkip, readSkipGo]
        rw [if_pos h]]
      rw [show realNames ((n, c) :: rest) = realNames rest from by
        simp only [realNames, List.map_cons, List.filter_cons]
        rw [if_neg (by simp [h])]]
      exact ih it hs
    · rw [show readSkip ⟨(n, c) :: rest, none⟩ = (some (n, c), none, ⟨rest, none⟩) from by
        simp only [readSkip, readSkipGo]
        rw [if_neg h]]
      have hc := readSkip_clean rest
      rcases hr : readSkip ⟨rest, none⟩ with ⟨ent2, eo2, s2⟩
      rw [hr] at hc
      simp only at hc
      have heo : eo2 = none := hc.2
      subst heo
      have hsucc : iter_succ { it with d_ent := some (n, c) } ⟨rest, none⟩
          = .ok ({ it with d_ent := ent2 }, s2) := by
        unfold iter_succ
        rw [if_neg (by simp [hs])]
        rw [hr]
        cases ent2 with
        | none => rfl
        | some q => rfl
      rw [iterDrain_go rfl hsucc]
      have hrest := ih it hs
      rw [hr] at hrest
      simp only at hrest
      constructor
      · rw [show realNames ((n, c) :: rest) = n :: realNames rest from by
          simp only [realNames, List.map_cons, List.filter_cons]
          rw [if_pos (by simp [h])]]
        simp only [List.cons.injEq, true_and]
        exact hrest.1
      · exact hrest.2

/-- A symlink whose target is a directory (fixture). -/
def symDirLink : FsTree := .mk .symlinkToDir none none none []

/-- A node whose stat fails (fixture). -/
def statFailNode : FsTree :=
  .mk .directory (some ⟨"fstatat: (13) Permission denied"⟩) none none []

/-! Assembly lemmas used to evaluate the renderer on concrete trees:
one loop iteration, one fully rendered node, and one node whose
directory open failed. -/

/-- One full iteration of the renderer's child loop, with every
sub-result supplied as an equation. -/
theorem renderLoop_step {it next' itF nextF : iter_t} {s s' : RawStream}
    {n : String} {c : FsTree} {childOut restOut out : String}
    (next : iter_t) (lines : List Bool) (depth : Int)
    (h1 : it.d_ent = some (n, c)) (h2 : iter_t.error it = none)
    (h3 : it.hasStream = true)
    (h4 : iter_succ it s = .ok (next', s'))
    (h5 : print_rec (file_t.construct c n) lines false (iter_beq next' iter_end) depth
      = .ok childOut)
    (h6 : renderLoop next' next' s' lines depth = .ok (restOut, itF, nextF))
    (h7 : out = childOut ++ restOut) :
    renderLoop it next s lines depth = .ok (out, itF, nextF) := by
  rw [renderLoop_go next lines depth h1 h2 h3 h4, h5, h6, h7]

/-- A node rendered at unlimited depth whose open (if any) succeeded:
its own line followed by whatever the child loop produced. -/
theorem print_rec_node {node : file_t} {it0 itF nextF : iter_t} {s0 : RawStream}
    {bodyOut : String} {lines' : List Bool}
    (lines : List Bool) (first last : Bool)
    (h0 : file_t.begin node = .ok (it0, s0))
    (h1 : iter_t.error it0 = none)
    (hL : lines' = if !first then lines ++ [!last] else lines)
    (h2 : renderLoop it0 iter_end s0 lines' (-1) = .ok (bodyOut, itF, nextF))
    (h3 : iter_t.error itF = none) :
    print_rec node lines first last (-1)
      = .ok (lineGlyphs lines
          ++ (if !first then (if last then "└── " else "├── ") else "")
          ++ file_t.display node ++ "\n" ++ bodyOut) := by
  rw [print_rec_go lines first last (-1) (by decide)]
  simp only [h0]
  simp only [h1, Option.isSome_none, Bool.false_eq_true, if_false]
  rw [← hL]
  rw [show ((-1 : Int) == -1) = true from rfl]
  simp only [if_true]
  rw [h2]
  simp only [h3]
  rw [String.append_empty, String.append_empty]

/-- A directory node whose open failed: its own line with the error
appended inline, a newline, and nothing else. -/
theorem print_rec_node_openErr {node : file_t} {it0 : iter_t} {s0 : RawStream}
    {e : err_t}
    (lines : List Bool) (first last : Bool) (d : Int) (hd0 : d ≠ 0)
    (h0 : file_t.begin node = .ok (it0, s0))
    (h1 : iter_t.error it0 = some e) :
    print_rec node lines first last d
      = .ok (lineGlyphs lines
          ++ (if !first then (if last then "└── " else "├── ") else "")
          ++ file_t.display node ++ " " ++ err_t.display e ++ "\n") := by
  rw [print_rec_go lines first last d hd0]
  simp only [h0]
  simp only [h1, Option.isSome_some, eq_self_iff_true, if_true]
  rw [renderLoop_stop_none iter_end s0 _ _ rfl]
  simp only [(show iter_t.error iter_end = none from rfl)]
  rw [String.append_empty, String.append_empty]
  simp only [String.append_assoc]

/-! Depth limiting: spec-side truncation of a tree to a bounded number
of levels, and transport of iterator and stream state along child
truncation.  `truncate k t` keeps the root of `t` and at most `k - 1`
further levels below it, preserving every per-node error. -/

mutual

/-- Keep the root and at most `k - 1` further levels below it; with
`k ≤ 1` the children are dropped entirely.  Kind and the stat, open and
read errors of every surviving node are preserved. -/
def truncate (k : Int) (t : FsTree) : FsTree :=
  if k ≤ 1 then .mk t.kind t.statErr t.openErr t.readErr []
  else .mk t.kind t.statErr t.openErr t.readErr (truncateList (k - 1) t.children)
termination_by sizeOf t
decreasing_by
  have h1 := fsTree_lower t
  have h2 := one_le_sizeOf_option t.readErr
  omega

/-- `truncate` mapped over a dirent list. -/
def truncateList (k : Int) : List (String × FsTree) → List (String × FsTree)
  | [] => []
  | (n, c) :: rest => (n, truncate k c) :: truncateList k rest
termination_by l => sizeOf l
decreasing_by
  · simp
    omega
  · simp

end

theorem truncateList_nil (k : Int) : truncateList k [] = [] := by
  rw [truncateList.eq_def]

theorem truncateList_cons (k : Int) (n : String) (c : FsTree)
    (rest : List (String × FsTree)) :
    truncateList k ((n, c) :: rest) = (n, truncate k c) :: truncateList k rest := by
  rw [truncateList.eq_def]

theorem truncate_le {k : Int} (t : FsTree) (h : k ≤ 1) :
    truncate k t = .mk t.kind t.statErr t.openErr t.readErr [] := by
  rw [truncate.eq_def, if_pos h]

theorem truncate_gt {k : Int} (t : FsTree) (h : ¬k ≤ 1) :
    truncate k t
      = .mk t.kind t.statErr t.openErr t.readErr (truncateList (k - 1) t.children) := by
  rw [truncate.eq_def, if_neg h]

/-- Truncation preserves the root's kind and all three per-node errors. -/
theorem truncate_fields (k : Int) (t : FsTree) :
    (truncate k t).kind = t.kind ∧ (truncate k t).statErr = t.statErr ∧
    (truncate k t).openErr = t.openErr ∧ (truncate k t).readErr = t.readErr := by
  by_cases h : k ≤ 1
  · rw [truncate_le t h]
    exact ⟨rfl, rfl, rfl, rfl⟩
  · rw [truncate_gt t h]
    exact ⟨rfl, rfl, rfl, rfl⟩

theorem truncate_children_le {k : Int} (t : FsTree) (h : k ≤ 1) :
    (truncate k t).children = [] := by
  rw [truncate_le t h]
  rfl

theorem truncate_children_gt {k : Int} (t : FsTree) (h : ¬k ≤ 1) :
    (truncate k t).children = truncateList (k - 1) t.children := by
  rw [truncate_gt t h]
  rfl

/-- Truncation of one dirent payload. -/
def trEnt (k : Int) (p : String × FsTree) : String × FsTree := (p.1, truncate k p.2)

/-- Transport of iterator state along child truncation. -/
def trIter (k : Int) (it : iter_t) : iter_t :=
  { it with d_ent := it.d_ent.map (trEnt k) }

/-- Transport of shared stream state along child truncation. -/
def trStream (k : Int) (s : RawStream) : RawStream :=
  ⟨truncateList k s.entries, s.readErr⟩

theorem trIter_d_name (k : Int) (it : iter_t) : (trIter k it).d_name = it.d_name := by
  cases hd : it.d_ent with
  | none => simp [trIter, iter_t.d_name, hd]
  | some p => simp [trIter, iter_t.d_name, hd, trEnt]

theorem trIter_beq_end (k : Int) (it : iter_t) :
    iter_beq (trIter k it) iter_end = iter_beq it iter_end := by
  simp [iter_beq, trIter_d_name]

theorem trIter_error (k : Int) (it : iter_t) :
    iter_t.error (trIter k it) = iter_t.error it := rfl

theorem trIter_hasStream (k : Int) (it : iter_t) :
    (trIter k it).hasStream = it.hasStream := rfl

theorem trIter_d_ent_some {it : iter_t} {n : String} {c : FsTree} (k : Int)
    (h : it.d_ent = some (n, c)) : (trIter k it).d_ent = some (n, truncate k c) := by
  show it.d_ent.map (trEnt k) = _
  rw [h]
  rfl

theorem trIter_d_ent_none {it : iter_t} (k : Int)
    (h : it.d_ent = none) : (trIter k it).d_ent = none := by
  show it.d_ent.map (trEnt k) = _
  rw [h]
  rfl
/-- The readdir skip loop commutes with truncation of the payloads:
names (and hence the skipping) are untouched. -/
theorem readSkipGo_tr (k : Int) :
    ∀ (l : List (String × FsTree)) (re : Option err_t),
      readSkipGo (truncateList k l) re
        = ((readSkipGo l re).1.map (trEnt k), (readSkipGo l re).2.1,
           trStream k (readSkipGo l re).2.2) := by
  intro l
  induction l with
  | nil =>
    intro re
    rw [truncateList_nil]
    simp [readSkipGo, trStream, truncateList_nil]
  | cons p rest ih =>
    intro re
    obtain ⟨n, c⟩ := p
    rw [truncateList_cons]
    simp only [readSkipGo]
    by_cases h : (n == "." || n == "..") = true
    · rw [if_pos h, if_pos h]
      exact ih re
    · rw [if_neg h, if_neg h]
      simp [trStream, trEnt]

theorem readSkip_tr (k : Int) (s : RawStream) :
    readSkip (trStream k s)
      = ((readSkip s).1.map (trEnt k), (readSkip s).2.1,
         trStream k (readSkip s).2.2) :=
  readSkipGo_tr k s.entries s.readErr

/-- `operator++` commutes with truncation of the payloads carried by
the iterator and the stream. -/
theorem iter_succ_tr (k : Int) (it : iter_t) (s : RawStream) :
    iter_succ (trIter k it) (trStream k s)
      = (iter_succ it s).map (fun r => (trIter k r.1, trStream k r.2)) := by
  unfold iter_succ
  rw [trIter_hasStream]
  by_cases hst : (!it.hasStream) = true
  · rw [if_pos hst, if_pos hst]
    rfl
  · rw [if_neg hst, if_neg hst]
    rw [readSkip_tr]
    rcases readSkip s with ⟨ent, eo, s2⟩
    cases ent with
    | none =>
      cases eo with
      | some e => rfl
      | none => rfl
    | some q => rfl

/-- Everything the skip loop hands out comes from the raw dirent list. -/
theorem readSkipGo_mem :
    ∀ (l : List (String × FsTree)) (re : Option err_t),
      (∀ p, (readSkipGo l re).1 = some p → p ∈ l) ∧
      (∀ p, p ∈ (readSkipGo l re).2.2.entries → p ∈ l) := by
  intro l
  induction l with
  | nil =>
    intro re
    constructor
    · intro p hp
      simp [readSkipGo] at hp
    · intro p hp
      simp [readSkipGo] at hp
  | cons q rest ih =>
    intro re
    obtain ⟨n, c⟩ := q
    simp only [readSkipGo]
    by_cases h : (n == "." || n == "..") = true
    · rw [if_pos h]
      exact ⟨fun p hp => List.mem_cons_of_mem _ ((ih re).1 p hp),
             fun p hp => List.mem_cons_of_mem _ ((ih re).2 p hp)⟩
    · rw [if_neg h]
      constructor
      · intro p hp
        have hp' : some (n, c) = some p := hp
        injection hp' with hp'
        rw [← hp']
        exact List.mem_cons_self _ _
      · intro p hp
        have hp' : p ∈ rest := hp
        exact List.mem_cons_of_mem _ hp'

/-- Everything a successful advance hands out comes from the previous
stream (or was the entry already held). -/
theorem iter_succ_bound {it it' : iter_t} {s s' : RawStream}
    (h : iter_succ it s = .ok (it', s')) :
    (∀ p, p ∈ s'.entries → p ∈ s.entries) ∧
    (∀ p, it'.d_ent = some p → p ∈ s.entries ∨ it.d_ent = some p) := by
  unfold iter_succ at h
  by_cases hst : (!it.hasStream) = true
  · rw [if_pos hst] at h
    exact absurd h (by simp)
  · rw [if_neg hst] at h
    have hm := readSkipGo_mem s.entries s.readErr
    rcases hr : readSkip s with ⟨ent, eo, s2⟩
    have hr' : readSkipGo s.entries s.readErr = (ent, eo, s2) := hr
    rw [hr'] at hm
    rw [hr] at h
    cases ent with
    | none =>
      cases eo with
      | some e =>
        simp only [Except.ok.injEq, Prod.mk.injEq] at h
        obtain ⟨h1, h2⟩ := h
        subst h1 h2
        exact ⟨fun p hp => hm.2 p hp, fun p hp => Or.inr hp⟩
      | none =>
        simp only [Except.ok.injEq, Prod.mk.injEq] at h
        obtain ⟨h1, h2⟩ := h
        subst h1 h2
        refine ⟨fun p hp => hm.2 p hp, fun p hp => ?_⟩
        have hp' : (none : Option (String × FsTree)) = some p := hp
        exact absurd hp' (by simp)
    | some q =>
      simp only [Except.ok.injEq, Prod.mk.injEq] at h
      obtain ⟨h1, h2⟩ := h
      subst h1 h2
      refine ⟨fun p hp => hm.2 p hp, fun p hp => Or.inl ?_⟩
      have hp' : some q = some p := hp
      injection hp' with hp'
      rw [← hp']
      exact hm.1 q rfl

/-- A dirent payload is strictly smaller than the tree listing it. -/
theorem sizeOf_mem_children {t : FsTree} {p : String × FsTree}
    (hp : p ∈ t.children) : sizeOf p.2 < sizeOf t := by
  cases t with
  | mk k se oe re ch =>
    have hp' : p ∈ ch := hp
    have hlt := List.sizeOf_lt_of_mem hp'
    obtain ⟨n, c⟩ := p
    simp only [Prod.mk.sizeOf_spec] at hlt
    simp only [FsTree.mk.sizeOf_spec]
    omega

/-- At depth 0 the child loop prints nothing: every recursive child
call is cut off by the `if (depth == 0) return;` guard, and the loop
itself writes nothing. -/
theorem renderLoop_depth0 :
    ∀ (it next : iter_t) (s : RawStream) (lines : List Bool),
      (it.d_ent.isSome = true → it.hasStream = true) →
      ∃ itF nF, renderLoop it next s lines 0 = .ok ("", itF, nF) ∧
        itF.dirError = it.dirError := by
  have H : ∀ (it next : iter_t) (s : RawStream) (lines : List Bool) (depth : Int),
      depth = 0 →
      (it.d_ent.isSome = true → it.hasStream = true) →
      ∃ itF nF, renderLoop it next s lines depth = .ok ("", itF, nF) ∧
        itF.dirError = it.dirError := by
    refine renderLoop.induct (fun _ _ _ _ _ => True)
      (fun it next s lines depth =>
        depth = 0 →
        (it.d_ent.isSome = true → it.hasStream = true) →
        ∃ itF nF, renderLoop it next s lines depth = .ok ("", itF, nF) ∧
          itF.dirError = it.dirError)
      ?_ ?_ ?_ ?_ ?_ ?_ ?_ ?_ ?_ ?_
    · intros
      trivial
    · intros
      trivial
    · intros
      trivial
    · intros
      trivial
    · intro it next s lines depth n c hd he a hsucc hdep hinv
      have hstream := hinv (by simp [hd])
      obtain ⟨it', s', hok⟩ := iter_succ_ok s hstream
      rw [hok] at hsucc
      exact absurd hsucc (by simp)
    · intro it next s lines depth n c hd he it' s' hsucc hnost hdep hinv
      have hstream := hinv (by simp [hd])
      rw [hstream] at hnost
      exact absurd hnost (by simp)
    · intro it next s lines depth n c hd he it' s' hsucc hnost msg hchild IH1 hdep hinv
      obtain ⟨out, hok⟩ := render_ok.1 (file_t.construct c n) lines false
        (iter_beq it' iter_end) depth
      rw [hok] at hchild
      exact absurd hchild (by simp)
    · intro it next s lines depth n c hd he it' s' hsucc hnost childOut hchild msg hloop IH1 IH2 hdep hinv
      have hfields := iter_succ_fields hsucc
      have hinv' : (it'.d_ent.isSome = true → it'.hasStream = true) := by
        intro _
        rw [hfields.1]
        exact hinv (by simp [hd])
      obtain ⟨itF, nF, hok, _⟩ := IH2 hdep hinv'
      rw [hok] at hloop
      exact absurd hloop (by simp)
    · intro it next s lines depth n c hd he it' s' hsucc hnost childOut hchild bodyOut itF nextF hloop IH1 IH2 hdep hinv
      subst hdep
      have hstream := hinv (by simp [hd])
      have hfields := iter_succ_fields hsucc
      have hinv' : (it'.d_ent.isSome = true → it'.hasStream = true) := by
        intro _
        rw [hfields.1]
        exact hstream
      obtain ⟨itF0, nF0, hok, hde⟩ := IH2 rfl hinv'
      refine ⟨itF0, nF0, ?_, hde.trans hfields.2⟩
      exact renderLoop_step next lines 0 hd he hstream hsucc
        (print_rec_depth0 (file_t.construct c n) lines false (iter_beq it' iter_end))
        hok (by rfl)
    · intro it next s lines depth hcatch hdep hinv
      cases hd : it.d_ent with
      | none =>
        exact ⟨it, next, renderLoop_stop_none next s lines depth hd, rfl⟩
      | some p =>
        obtain ⟨n, c⟩ := p
        cases he : iter_t.error it with
        | none => exact absurd (hcatch n c hd he) (by simp)
        | some e =>
          exact ⟨it, next, renderLoop_stop_err next s lines depth he, rfl⟩
  exact fun it next s lines hinv => H it next s lines 0 rfl hinv
/-- Transport of one run of the child loop along truncation: with a
depth budget of at least 1 the loop over the original stream and the
unlimited loop over the truncated stream write the same text, provided
every child rendered obeys the node-level correspondence (the `IH`
parameter, discharged later by structural induction on the tree). -/
theorem renderLoop_tr (B : Nat)
    (IH : ∀ (c : FsTree) (nm : String) (lines : List Bool) (first last : Bool) (k : Int),
      sizeOf c < B → 1 ≤ k →
      print_rec (file_t.construct c nm) lines first last k
        = print_rec (file_t.construct (truncate k c) nm) lines first last (-1)) :
    ∀ (it next : iter_t) (s : RawStream) (lines : List Bool) (depth : Int),
      1 ≤ depth →
      (it.d_ent.isSome = true → it.hasStream = true) →
      (∀ p, p ∈ s.entries → sizeOf p.2 < B) →
      (∀ p, it.d_ent = some p → sizeOf p.2 < B) →
      ∃ o itF nF, renderLoop it next s lines depth = .ok (o, itF, nF) ∧
        itF.dirError = it.dirError ∧
        renderLoop (trIter depth it) (trIter depth next) (trStream depth s) lines (-1)
          = .ok (o, trIter depth itF, trIter depth nF) := by
  refine renderLoop.induct (fun _ _ _ _ _ => True)
    (fun it next s lines depth =>
      1 ≤ depth →
      (it.d_ent.isSome = true → it.hasStream = true) →
      (∀ p, p ∈ s.entries → sizeOf p.2 < B) →
      (∀ p, it.d_ent = some p → sizeOf p.2 < B) →
      ∃ o itF nF, renderLoop it next s lines depth = .ok (o, itF, nF) ∧
        itF.dirError = it.dirError ∧
        renderLoop (trIter depth it) (trIter depth next) (trStream depth s) lines (-1)
          = .ok (o, trIter depth itF, trIter depth nF))
    ?_ ?_ ?_ ?_ ?_ ?_ ?_ ?_ ?_ ?_
  · intros
    trivial
  · intros
    trivial
  · intros
    trivial
  · intros
    trivial
  · intro it next s lines depth n c hd he a hsucc hdep hinv hbound hdent
    have hstream := hinv (by simp [hd])
    obtain ⟨it', s', hok⟩ := iter_succ_ok s hstream
    rw [hok] at hsucc
    exact absurd hsucc (by simp)
  · intro it next s lines depth n c hd he it' s' hsucc hnost hdep hinv hbound hdent
    have hstream := hinv (by simp [hd])
    rw [hstream] at hnost
    exact absurd hnost (by simp)
  · intro it next s lines depth n c hd he it' s' hsucc hnost msg hchild IH1 hdep hinv hbound hdent
    obtain ⟨out, hok⟩ := render_ok.1 (file_t.construct c n) lines false
      (iter_beq it' iter_end) depth
    rw [hok] at hchild
    exact absurd hchild (by simp)
  · intro it next s lines depth n c hd he it' s' hsucc hnost childOut hchild msg hloop IH1 IH2 hdep hinv hbound hdent
    have hfields := iter_succ_fields hsucc
    have hb2 := iter_succ_bound hsucc
    have hinv' : (it'.d_ent.isSome = true → it'.hasStream = true) := by
      intro _
      rw [hfields.1]
      exact hinv (by simp [hd])
    have hbound' : ∀ p, p ∈ s'.entries → sizeOf p.2 < B :=
      fun p hp => hbound p (hb2.1 p hp)
    have hdent' : ∀ p, it'.d_ent = some p → sizeOf p.2 < B :=
      fun p hp => (hb2.2 p hp).elim (hbound p) (hdent p)
    obtain ⟨o, itF, nF, hok, _, _⟩ := IH2 hdep hinv' hbound' hdent'
    rw [hok] at hloop
    exact absurd hloop (by simp)
  · intro it next s lines depth n c hd he it' s' hsucc hnost childOut hchild bodyOut itF nextF hloop IH1 IH2 hdep hinv hbound hdent
    have hstream := hinv (by simp [hd])
    have hfields := iter_succ_fields hsucc
    have hb2 := iter_succ_bound hsucc
    have hinv' : (it'.d_ent.isSome = true → it'.hasStream = true) := by
      intro _
      rw [hfields.1]
      exact hstream
    have hbound' : ∀ p, p ∈ s'.entries → sizeOf p.2 < B :=
      fun p hp => hbound p (hb2.1 p hp)
    have hdent' : ∀ p, it'.d_ent = some p → sizeOf p.2 < B :=
      fun p hp => (hb2.2 p hp).elim (hbound p) (hdent p)
    obtain ⟨o, itF0, nF0, hok, hde, htr⟩ := IH2 hdep hinv' hbound' hdent'
    rw [hok] at hloop
    simp only [Except.ok.injEq, Prod.mk.injEq] at hloop
    obtain ⟨hq1, hq2, hq3⟩ := hloop
    subst hq1 hq2 hq3
    refine ⟨childOut ++ o, itF0, nF0, ?_, hde.trans hfields.2, ?_⟩
    · exact renderLoop_step next lines depth hd he hstream hsucc hchild hok rfl
    · have h4 : iter_succ (trIter depth it) (trStream depth s)
          = .ok (trIter depth it', trStream depth s') := by
        rw [iter_succ_tr, hsucc]
        rfl
      have h5 : print_rec (file_t.construct (truncate depth c) n) lines false
          (iter_beq (trIter depth it') iter_end) (-1) = .ok childOut := by
        rw [trIter_beq_end]
        rw [← IH c n lines false (iter_beq it' iter_end) depth (hdent (n, c) hd) hdep]
        exact hchild
      exact renderLoop_step (trIter depth next) lines (-1)
        (trIter_d_ent_some depth hd)
        ((trIter_error depth it).trans he)
        ((trIter_hasStream depth it).trans hstream)
        h4 h5 htr rfl
  · intro it next s lines depth hcatch hdep hinv hbound hdent
    cases hd : it.d_ent with
    | none =>
      refine ⟨"", it, next, renderLoop_stop_none next s lines depth hd, rfl, ?_⟩
      exact renderLoop_stop_none (trIter depth next) (trStream depth s) lines (-1)
        (trIter_d_ent_none depth hd)
    | some p =>
      obtain ⟨n, c⟩ := p
      cases he : iter_t.error it with
      | none => exact absurd (hcatch n c hd he) (by simp)
      | some e =>
        refine ⟨"", it, next, renderLoop_stop_err next s lines depth he, rfl, ?_⟩
        exact renderLoop_stop_err (trIter depth next) (trStream depth s) lines (-1)
          ((trIter_error depth it).trans he)
/-- Node-level depth-limit equivalence: rendering a node with depth
budget `k ≥ 1` equals unlimited rendering of the same node truncated to
`k` levels (the root plus `k - 1` further levels below it).  Strong
induction on the size of the tree. -/
theorem trunc_print_aux :
    ∀ (N : Nat) (t : FsTree), sizeOf t < N →
      ∀ (nm : String) (lines : List Bool) (first last : Bool) (k : Int), 1 ≤ k →
        print_rec (file_t.construct t nm) lines first last k
          = print_rec (file_t.construct (truncate k t) nm) lines first last (-1) := by
  intro N
  induction N with
  | zero =>
    intro t ht
    exact absurd ht (by omega)
  | succ N ihN =>
    intro t ht nm lines first last k hk
    have hfields := truncate_fields k t
    have hdisp : file_t.display (file_t.construct (truncate k t) nm)
        = file_t.display (file_t.construct t nm) := by
      unfold file_t.construct
      rw [hfields.2.1]
      cases hst : t.statErr <;> rfl
    have hisdir : (file_t.construct (truncate k t) nm).is_dir
        = (file_t.construct t nm).is_dir := by
      unfold file_t.construct
      rw [hfields.2.1, hfields.1]
      cases hst : t.statErr <;> rfl
    rw [print_rec_go lines first last k (by omega),
        print_rec_go lines first last (-1) (by decide)]
    rw [show ((-1 : Int) == -1) = true from rfl]
    simp only [if_true]
    have hkne : ((k == (-1 : Int))) = false := by
      rw [beq_eq_false_iff_ne]
      omega
    simp only [hkne, Bool.false_eq_true, if_false]
    by_cases hdir : (file_t.construct t nm).is_dir = true
    · cases hoe : t.openErr with
      | some e =>
        have hbL : file_t.begin (file_t.construct t nm)
            = .ok ({ hasStream := false, dirError := some e, d_ent := none, err_ := some e }, ⟨[], none⟩) := by
          unfold file_t.begin
          rw [if_neg (by rw [hdir]; decide)]
          simp only [construct_node]
          unfold iter_make open_as_dir
          simp only [hoe]
          rfl
        have hbR : file_t.begin (file_t.construct (truncate k t) nm)
            = .ok ({ hasStream := false, dirError := some e, d_ent := none, err_ := some e }, ⟨[], none⟩) := by
          unfold file_t.begin
          rw [if_neg (by rw [hisdir, hdir]; decide)]
          simp only [construct_node]
          unfold iter_make open_as_dir
          simp only [hfields.2.2.1, hoe]
          rfl
        have herrE : iter_t.error { hasStream := false, dirError := some e, d_ent := none, err_ := some e } = some e := rfl
        have hendD : (iter_end : iter_t).d_ent = none := rfl
        have hendE : iter_t.error iter_end = none := rfl
        simp only [hbL, hbR]
        simp only [herrE, Option.isSome_some, eq_self_iff_true, if_true]
        rw [renderLoop_stop_none iter_end (⟨[], none⟩ : RawStream) _ _ hendD]
        rw [renderLoop_stop_none iter_end (⟨[], none⟩ : RawStream) _ _ hendD]
        simp only [hendE]
        simp only [String.append_empty]
        rw [hdisp]
      | none =>
        have hbL : file_t.begin (file_t.construct t nm)
            = iter_succ { hasStream := true, dirError := none, d_ent := none, err_ := none } ⟨t.children, t.readErr⟩ := by
          unfold file_t.begin
          rw [if_neg (by rw [hdir]; decide)]
          simp only [construct_node]
          unfold iter_make open_as_dir
          simp only [hoe]
          rfl
        obtain ⟨it0, s0, hsucc0⟩ := @iter_succ_ok
          { hasStream := true, dirError := none, d_ent := none, err_ := none }
          ⟨t.children, t.readErr⟩ rfl
        have hst0 := iter_succ_fields hsucc0
        have hstream0 : it0.hasStream = true := hst0.1
        have herr0 : iter_t.error it0 = none := hst0.2
        by_cases hk2 : k ≤ 1
        · have hkeq : k = 1 := by omega
          subst hkeq
          have hzero : (1 : Int) - 1 = 0 := rfl
          simp only [hbL, hsucc0]
          simp only [herr0, Option.isSome_none, Bool.false_eq_true, if_false]
          simp only [hzero]
          obtain ⟨itF, nF, h0loop, h0de⟩ := renderLoop_depth0 it0 iter_end s0
            (if (!first) = true then lines ++ [!last] else lines)
            (fun _ => hstream0)
          have herrF : iter_t.error itF = none := h0de.trans herr0
          simp only [h0loop]
          simp only [herrF]
          have hch : (truncate 1 t).children = [] := truncate_children_le t (by omega)
          have hbR : file_t.begin (file_t.construct (truncate 1 t) nm)
              = iter_succ { hasStream := true, dirError := none, d_ent := none, err_ := none } ⟨[], t.readErr⟩ := by
            unfold file_t.begin
            rw [if_neg (by rw [hisdir, hdir]; decide)]
            simp only [construct_node]
            unfold iter_make open_as_dir
            simp only [hfields.2.2.1, hoe, hch, hfields.2.2.2]
            rfl
          have hsuccR : ∃ itR, iter_succ { hasStream := true, dirError := none, d_ent := none, err_ := none } (⟨[], t.readErr⟩ : RawStream) = .ok (itR, ⟨[], none⟩) ∧ itR.dirError = none ∧ itR.d_ent = none := by
            cases hre : t.readErr with
            | none => exact ⟨_, rfl, rfl, rfl⟩
            | some e2 => exact ⟨_, rfl, rfl, rfl⟩
          obtain ⟨itR, hsR, hdeR, hdentR⟩ := hsuccR
          have herrR : iter_t.error itR = none := hdeR
          simp only [hbR, hsR]
          simp only [herrR, Option.isSome_none, Bool.false_eq_true, if_false]
          rw [renderLoop_stop_none iter_end (⟨[], none⟩ : RawStream) _ _ hdentR]
          simp only [herrR]
          simp only [String.append_empty]
          rw [hdisp]
        · have hbR : file_t.begin (file_t.construct (truncate k t) nm)
              = iter_succ { hasStream := true, dirError := none, d_ent := none, err_ := none } ⟨truncateList (k - 1) t.children, t.readErr⟩ := by
            unfold file_t.begin
            rw [if_neg (by rw [hisdir, hdir]; decide)]
            simp only [construct_node]
            unfold iter_make open_as_dir
            simp only [hfields.2.2.1, hoe, truncate_children_gt t hk2, hfields.2.2.2]
            rfl
          have hsR : iter_succ { hasStream := true, dirError := none, d_ent := none, err_ := none } (⟨truncateList (k - 1) t.children, t.readErr⟩ : RawStream) = .ok (trIter (k - 1) it0, trStream (k - 1) s0) := by
            have h1 : (⟨truncateList (k - 1) t.children, t.readErr⟩ : RawStream)
                = trStream (k - 1) ⟨t.children, t.readErr⟩ := rfl
            have h2 : ({ hasStream := true, dirError := none, d_ent := none, err_ := none } : iter_t) = trIter (k - 1) { hasStream := true, dirError := none, d_ent := none, err_ := none } := rfl
            rw [h1, h2, iter_succ_tr, hsucc0]
            rfl
          simp only [hbL, hsucc0, hbR, hsR]
          simp only [trIter_error, herr0, Option.isSome_none, Bool.false_eq_true, if_false]
          have IH' : ∀ (c : FsTree) (nm2 : String) (lines2 : List Bool)
              (first2 last2 : Bool) (k2 : Int), sizeOf c < sizeOf t → 1 ≤ k2 →
              print_rec (file_t.construct c nm2) lines2 first2 last2 k2
                = print_rec (file_t.construct (truncate k2 c) nm2) lines2 first2 last2 (-1) :=
            fun c nm2 l2 f2 la2 k2 hc hk2' => ihN c (by omega) nm2 l2 f2 la2 k2 hk2'
          have hb0 := iter_succ_bound hsucc0
          have hbound : ∀ p, p ∈ s0.entries → sizeOf p.2 < sizeOf t := by
            intro p hp
            have hmem : p ∈ t.children := hb0.1 p hp
            exact sizeOf_mem_children hmem
          have hdent0 : ∀ p, it0.d_ent = some p → sizeOf p.2 < sizeOf t := by
            intro p hp
            rcases hb0.2 p hp with hmem | hnone
            · exact sizeOf_mem_children (show p ∈ t.children from hmem)
            · have hnone' : (none : Option (String × FsTree)) = some p := hnone
              exact absurd hnone' (by simp)
          obtain ⟨o, itF, nF, hloopL, hdeF, hloopR⟩ := renderLoop_tr (sizeOf t) IH'
            it0 iter_end s0 (if (!first) = true then lines ++ [!last] else lines) (k - 1)
            (by omega) (fun _ => hstream0) hbound hdent0
          simp only [hloopL]
          have hloopR' : renderLoop (trIter (k - 1) it0) iter_end (trStream (k - 1) s0)
              (if (!first) = true then lines ++ [!last] else lines) (-1)
              = .ok (o, trIter (k - 1) itF, trIter (k - 1) nF) := hloopR
          have herrF2 : iter_t.error itF = none := hdeF.trans herr0
          simp only [hloopR']
          simp only [trIter_error, herrF2]
          simp only [String.append_empty]
          rw [hdisp]
    · have hdirf : (file_t.construct t nm).is_dir = false := by
        cases hx : (file_t.construct t nm).is_dir with
        | false => rfl
        | true => exact absurd hx hdir
      have hbL : file_t.begin (file_t.construct t nm) = .ok (iter_end, ⟨[], none⟩) := by
        unfold file_t.begin
        rw [if_pos (by rw [hdirf]; decide)]
      have hbR : file_t.begin (file_t.construct (truncate k t) nm)
          = .ok (iter_end, ⟨[], none⟩) := by
        unfold file_t.begin
        rw [if_pos (by rw [hisdir, hdirf]; decide)]
      have hendD : (iter_end : iter_t).d_ent = none := rfl
      have hendE : iter_t.error iter_end = none := rfl
      simp only [hbL, hbR]
      simp only [hendE, Option.isSome_none, Bool.false_eq_true, if_false]
      rw [renderLoop_stop_none iter_end (⟨[], none⟩ : RawStream) _ _ hendD]
      rw [renderLoop_stop_none iter_end (⟨[], none⟩ : RawStream) _ _ hendD]
      simp only [hendE]
      simp only [String.append_empty]
      rw [hdisp]
/-! Claim theorems. -/

/-- C1: the spec requires a directory whose listing fails partway to be
rendered as its readable entries followed by exactly one synthetic last
child displaying the captured error.  The code does neither: because
`iter_t::error()` returns the directory-open error (`dir.error`) and the
erroring `operator++` leaves `d_name` untouched, the loop does not stop
at the failure, the last readable entry is printed a second time with
the last-child glyph, and the synthetic error child is never emitted.
This theorem evaluates the renderer at the failing input (entries `e1`,
`e2`, then a readdir failure). -/
theorem c1_mid_stream_failure_render :
    print (file_t.construct errTree "d") (-1)
      = .ok "d\n├── e1\n├── e2\n└── e2\n" := by
  have hbL1 : file_t.begin (file_t.construct leafFile "e1")
      = .ok (iter_end, ⟨[], none⟩) := rfl
  have hbL2 : file_t.begin (file_t.construct leafFile "e2")
      = .ok (iter_end, ⟨[], none⟩) := rfl
  have hstopT : renderLoop iter_end iter_end (⟨[], none⟩ : RawStream) [true] (-1)
      = .ok ("", iter_end, iter_end) := renderLoop_stop_none _ _ _ _ rfl
  have hstopF : renderLoop iter_end iter_end (⟨[], none⟩ : RawStream) [false] (-1)
      = .ok ("", iter_end, iter_end) := renderLoop_stop_none _ _ _ _ rfl
  have hleaf1 : print_rec (file_t.construct leafFile "e1") [] false false (-1)
      = .ok "├── e1\n" :=
    print_rec_node [] false false hbL1 rfl rfl hstopT rfl
  have hleaf2 : print_rec (file_t.construct leafFile "e2") [] false false (-1)
      = .ok "├── e2\n" :=
    print_rec_node [] false false hbL2 rfl rfl hstopT rfl
  have hleaf3 : print_rec (file_t.construct leafFile "e2") [] false true (-1)
      = .ok "└── e2\n" :=
    print_rec_node [] false true hbL2 rfl rfl hstopF rfl
  have hL3 : renderLoop ⟨true, none, none, some ⟨"readdir: (5) Input/output error"⟩⟩
      ⟨true, none, none, some ⟨"readdir: (5) Input/output error"⟩⟩ ⟨[], none⟩ [] (-1)
      = .ok ("", ⟨true, none, none, some ⟨"readdir: (5) Input/output error"⟩⟩,
          ⟨true, none, none, some ⟨"readdir: (5) Input/output error"⟩⟩) :=
    renderLoop_stop_none _ _ _ _ rfl
  have hL2 : renderLoop
      ⟨true, none, some ("e2", leafFile), some ⟨"readdir: (5) Input/output error"⟩⟩
      ⟨true, none, some ("e2", leafFile), some ⟨"readdir: (5) Input/output error"⟩⟩
      ⟨[], none⟩ [] (-1)
      = .ok ("└── e2\n", ⟨true, none, none, some ⟨"readdir: (5) Input/output error"⟩⟩,
          ⟨true, none, none, some ⟨"readdir: (5) Input/output error"⟩⟩) :=
    renderLoop_step _ [] (-1) (by rfl) (by rfl) (by rfl) (by rfl) hleaf3 hL3 (by rfl)
  have hL1 : renderLoop ⟨true, none, some ("e2", leafFile), none⟩
      ⟨true, none, some ("e2", leafFile), none⟩
      ⟨[], some ⟨"readdir: (5) Input/output error"⟩⟩ [] (-1)
      = .ok ("├── e2\n└── e2\n",
          ⟨true, none, none, some ⟨"readdir: (5) Input/output error"⟩⟩,
          ⟨true, none, none, some ⟨"readdir: (5) Input/output error"⟩⟩) :=
    renderLoop_step _ [] (-1) (by rfl) (by rfl) (by rfl) (by rfl) hleaf2 hL2 (by rfl)
  have hL0 : renderLoop ⟨true, none, some ("e1", leafFile), none⟩ iter_end
      ⟨[("e2", leafFile)], some ⟨"readdir: (5) Input/output error"⟩⟩ [] (-1)
      = .ok ("├── e1\n├── e2\n└── e2\n",
          ⟨true, none, none, some ⟨"readdir: (5) Input/output error"⟩⟩,
          ⟨true, none, none, some ⟨"readdir: (5) Input/output error"⟩⟩) :=
    renderLoop_step _ [] (-1) (by rfl) (by rfl) (by rfl) (by rfl) hleaf1 hL1 (by rfl)
  have hb0 : file_t.begin (file_t.construct errTree "d")
      = .ok (⟨true, none, some ("e1", leafFile), none⟩,
          ⟨[("e2", leafFile)], some ⟨"readdir: (5) Input/output error"⟩⟩) := rfl
  exact print_rec_node [] true true hb0 rfl rfl hL0 rfl

/-- C2: the spec says an advance that hits a readdir error sets the
captured error *and* clears `current-name`, making the iterator equal
to end.  The code stores the error but returns before the `d_name`
assignment, so the iterator keeps the previous name and does not equal
the canonical end iterator. -/
theorem c2_erroring_advance_keeps_name :
    iter_succ lastEntryIter failTail
      = .ok ({ lastEntryIter with
                 err_ := some ⟨"readdir: (5) Input/output error"⟩ }, ⟨[], none⟩) ∧
    ({ lastEntryIter with
         err_ := some ⟨"readdir: (5) Input/output error"⟩ } : iter_t).err_.isSome = true ∧
    ({ lastEntryIter with
         err_ := some ⟨"readdir: (5) Input/output error"⟩ } : iter_t).d_name = some "e2" ∧
    iter_beq { lastEntryIter with
                 err_ := some ⟨"readdir: (5) Input/output error"⟩ } iter_end = false := by
  exact ⟨rfl, rfl, rfl, rfl⟩

/-- C4: iterating a directory with a clean stream yields exactly its
real entries — the dirent names in native order with "." and ".."
removed — and leaves no captured error; an empty directory yields the
empty list. -/
theorem c4_iteration_real_entries (ch : List (String × FsTree)) (name : String) :
    ∃ it s,
      file_t.begin (file_t.construct (FsTree.mk .directory none none none ch) name)
        = .ok (it, s) ∧
      (iterDrain it s).1 = realNames ch ∧
      (∀ n, n ∈ (iterDrain it s).1 → ¬(n = "." ∨ n = "..")) ∧
      (iterDrain it s).2.err_ = none := by
  have hclean := readSkip_clean ch
  rcases hr : readSkip ⟨ch, none⟩ with ⟨ent, eo, s2⟩
  rw [hr] at hclean
  simp only at hclean
  have heo : eo = none := hclean.2
  subst heo
  have hsucc : iter_succ { hasStream := true, dirError := none, d_ent := none, err_ := none }
      ⟨ch, none⟩
      = .ok ({ hasStream := true, dirError := none, d_ent := ent, err_ := none }, s2) := by
    unfold iter_succ
    rw [if_neg (by simp)]
    rw [hr]
    cases ent with
    | none => rfl
    | some q => rfl
  have hb : file_t.begin (file_t.construct (FsTree.mk .directory none none none ch) name)
      = .ok ({ hasStream := true, dirError := none, d_ent := ent, err_ := none }, s2) := by
    have hdir : (file_t.construct (FsTree.mk .directory none none none ch) name).is_dir
        = true := by
      simp [file_t.construct, FsTree.statErr, file_t.is_dir, FsTree.kind, lstat_mode, S_ISDIR]
      decide
    unfold file_t.begin
    rw [if_neg (by simp [hdir])]
    rw [construct_node]
    unfold iter_make open_as_dir
    simp only [FsTree.openErr, FsTree.children, FsTree.readErr, Option.isSome_some,
      Option.isNone_none, Option.getD_some, if_pos]
    exact hsucc
  refine ⟨_, _, hb, ?_, ?_, ?_⟩
  all_goals
    have hd := drain_clean ch { hasStream := true, dirError := none, d_ent := none, err_ := none }
      rfl
    rw [hr] at hd
    simp only at hd
  · exact hd.1
  · intro n hn
    rw [hd.1] at hn
    unfold realNames at hn
    have hf := List.of_mem_filter hn
    simp only [Bool.not_eq_true', beq_eq_false_iff_ne, ne_eq, Bool.or_eq_false_iff] at hf
    rintro (h | h)
    · exact absurd h hf.1
    · exact absurd h hf.2
  · exact hd.2

/-- C5: `is_dir()` is true exactly when the construction-time stat
succeeded and the stored mode carries the directory bit; a symlink
(whatever it points at) is never a directory because the stat does not
follow links; a stat failure leaves a captured error and `is_dir()`
false. -/
theorem c5_is_dir_semantics (t : FsTree) (name : String) :
    ((file_t.construct t name).is_dir = true ↔
      ((file_t.construct t name).err_ = none ∧
        S_ISDIR (file_t.construct t name).mode = true)) ∧
    ((t.kind = .symlinkToDir ∨ t.kind = .symlinkToFile) →
      (file_t.construct t name).is_dir = false) ∧
    (t.statErr.isSome = true →
      (file_t.construct t name).error.isSome = true ∧
      (file_t.construct t name).is_dir = false) := by
  refine ⟨?_, ?_, ?_⟩
  · cases hse : t.statErr with
    | some e => simp [file_t.construct, hse, file_t.is_dir]
    | none => simp [file_t.construct, hse, file_t.is_dir]
  · intro hk
    cases hse : t.statErr with
    | some e => simp [file_t.construct, hse, file_t.is_dir]
    | none =>
      rcases hk with hk | hk <;>
        simp [file_t.construct, hse, file_t.is_dir, hk, lstat_mode, S_ISDIR] <;>
        decide
  · intro hse2
    cases hse : t.statErr with
    | some e => simp [file_t.construct, hse, file_t.is_dir, file_t.error]
    | none =>
      rw [hse] at hse2
      simp at hse2

/-- Witness for C5 at concrete inputs: a symlink to a directory is not a
directory, and a stat-failed entry carries its error and is not a
directory. -/
theorem c5_witness :
    ((symDirLink.kind = .symlinkToDir ∨ symDirLink.kind = .symlinkToFile) ∧
      (file_t.construct symDirLink "s").is_dir = false) ∧
    (statFailNode.statErr.isSome = true ∧
      (file_t.construct statFailNode "x").error.isSome = true ∧
      (file_t.construct statFailNode "x").is_dir = false) :=
  ⟨⟨Or.inl rfl, (c5_is_dir_semantics symDirLink "s").2.1 (Or.inl rfl)⟩,
    ⟨rfl, (c5_is_dir_semantics statFailNode "x").2.2 rfl⟩⟩

/-- C6: a directory entry whose open fails is rendered as its own name
line with the error appended inline on the same line and no children;
and (second conjunct, at a concrete tree) the sibling after the failing
directory is still rendered. -/
theorem c6_open_error_inline (e : err_t) (re : Option err_t)
    (kids : List (String × FsTree)) (name : String) (lines : List Bool)
    (first last : Bool) (d : Int) (hd0 : d ≠ 0) :
    print_rec (file_t.construct (FsTree.mk .directory none (some e) re kids) name)
        lines first last d
      = .ok (lineGlyphs lines
          ++ (if !first then (if last then "└── " else "├── ") else "")
          ++ name ++ " " ++ err_t.display e ++ "\n") ∧
    print (file_t.construct parentTree "p") (-1)
      = .ok "p\n├── bad (error: openat: (13) Permission denied)\n└── ok.txt\n" := by
  constructor
  · have hdir : (file_t.construct (FsTree.mk .directory none (some e) re kids) name).is_dir
        = true := by
      simp [file_t.construct, FsTree.statErr, file_t.is_dir, FsTree.kind, lstat_mode, S_ISDIR]
      decide
    have h0 : file_t.begin (file_t.construct (FsTree.mk .directory none (some e) re kids) name)
        = .ok (⟨false, some e, none, some e⟩, ⟨[], none⟩) := by
      unfold file_t.begin
      rw [hdir]
      rw [if_neg (by decide)]
      rw [construct_node]
      unfold iter_make open_as_dir
      simp only [FsTree.openErr]
      rfl
    have hdisp : file_t.display
        (file_t.construct (FsTree.mk .directory none (some e) re kids) name) = name := by
      simp [file_t.display, file_t.construct, FsTree.statErr, String.append_empty]
    have hmain := print_rec_node_openErr lines first last d hd0 h0 rfl
    rw [hdisp] at hmain
    exact hmain
  · have hbBad : file_t.begin (file_t.construct openFailDir "bad")
        = .ok (⟨false, some ⟨"openat: (13) Permission denied"⟩, none,
            some ⟨"openat: (13) Permission denied"⟩⟩, ⟨[], none⟩) := rfl
    have hchild1 : print_rec (file_t.construct openFailDir "bad") [] false false (-1)
        = .ok "├── bad (error: openat: (13) Permission denied)\n" :=
      print_rec_node_openErr [] false false (-1) (by decide) hbBad rfl
    have hbOk : file_t.begin (file_t.construct leafFile "ok.txt")
        = .ok (iter_end, ⟨[], none⟩) := rfl
    have hstopF : renderLoop iter_end iter_end (⟨[], none⟩ : RawStream) [false] (-1)
        = .ok ("", iter_end, iter_end) := renderLoop_stop_none _ _ _ _ rfl
    have hchild2 : print_rec (file_t.construct leafFile "ok.txt") [] false true (-1)
        = .ok "└── ok.txt\n" :=
      print_rec_node [] false true hbOk rfl rfl hstopF rfl
    have hP2 : renderLoop ⟨true, none, none, none⟩ ⟨true, none, none, none⟩
        ⟨[], none⟩ [] (-1)
        = .ok ("", ⟨true, none, none, none⟩, ⟨true, none, none, none⟩) :=
      renderLoop_stop_none _ _ _ _ rfl
    have hP1 : renderLoop ⟨true, none, some ("ok.txt", leafFile), none⟩
        ⟨true, none, some ("ok.txt", leafFile), none⟩ ⟨[], none⟩ [] (-1)
        = .ok ("└── ok.txt\n", ⟨true, none, none, none⟩, ⟨true, none, none, none⟩) :=
      renderLoop_step _ [] (-1) (by rfl) (by rfl) (by rfl) (by rfl) hchild2 hP2 (by rfl)
    have hP0 : renderLoop ⟨true, none, some ("bad", openFailDir), none⟩ iter_end
        ⟨[("ok.txt", leafFile)], none⟩ [] (-1)
        = .ok ("├── bad (error: openat: (13) Permission denied)\n└── ok.txt\n",
            ⟨true, none, none, none⟩, ⟨true, none, none, none⟩) :=
      renderLoop_step _ [] (-1) (by rfl) (by rfl) (by rfl) (by rfl) hchild1 hP1 (by rfl)
    have hbP : file_t.begin (file_t.construct parentTree "p")
        = .ok (⟨true, none, some ("bad", openFailDir), none⟩,
            ⟨[("ok.txt", leafFile)], none⟩) := rfl
    exact print_rec_node [] true true hbP rfl rfl hP0 rfl

/-- Witness for C6 at a concrete input: the unopenable directory itself,
rendered as a last child at depth −1. -/
theorem c6_witness :
    (-1 : Int) ≠ 0 ∧
    print_rec (file_t.construct openFailDir "bad") [] false true (-1)
      = .ok (lineGlyphs []
          ++ (if !false then (if true then "└── " else "├── ") else "")
          ++ "bad" ++ " "
          ++ err_t.display ⟨"openat: (13) Permission denied"⟩ ++ "\n") :=
  ⟨by decide,
    (c6_open_error_inline ⟨"openat: (13) Permission denied"⟩ none [] "bad" [] false true
      (-1) (by decide)).1⟩

/-- C7: an iterator built from a failed directory open carries the open
error from construction on, is never advanced (the untouched dummy
stream is returned as-is), and construction does not throw; from a
successful open, construction advances exactly once, and on a clean
stream that positions the iterator at the first real entry (or at end
when there is none), with no captured error. -/
theorem c7_iterator_construction (t : FsTree) :
    (∀ e, t.openErr = some e →
      iter_make (open_as_dir t)
        = .ok ({ hasStream := false, dirError := some e, d_ent := none, err_ := some e },
            ⟨[], none⟩)) ∧
    (t.openErr = none →
      iter_make (open_as_dir t)
        = iter_succ { hasStream := true, dirError := none, d_ent := none, err_ := none }
            ⟨t.children, t.readErr⟩) ∧
    (t.openErr = none → t.readErr = none →
      ∃ it s, iter_make (open_as_dir t) = .ok (it, s) ∧
        it.d_ent = t.children.find? (fun p => !(p.1 == "." || p.1 == "..")) ∧
        it.err_ = none) := by
  refine ⟨?_, ?_, ?_⟩
  · intro e he
    unfold iter_make open_as_dir
    simp only [he]
    rfl
  · intro he
    unfold iter_make open_as_dir
    simp only [he]
    rfl
  · intro he hre
    have h2 : iter_make (open_as_dir t)
        = iter_succ { hasStream := true, dirError := none, d_ent := none, err_ := none }
            ⟨t.children, t.readErr⟩ := by
      unfold iter_make open_as_dir
      simp only [he]
      rfl
    rw [h2, hre]
    have hclean := readSkip_clean t.children
    rcases hr : readSkip ⟨t.children, none⟩ with ⟨ent, eo, s2⟩
    rw [hr] at hclean
    simp only at hclean
    have heo : eo = none := hclean.2
    subst heo
    refine ⟨{ hasStream := true, dirError := none, d_ent := ent, err_ := none }, s2, ?_,
      hclean.1, rfl⟩
    unfold iter_succ
    rw [if_neg (by simp)]
    rw [hr]
    cases ent with
    | none => rfl
    | some q => rfl

/-- Witness for C7 at concrete inputs: a failed open (error captured, no
advance, no throw) and a successful open over a clean listing with a
leading "." entry (positioned at the first real entry). -/
theorem c7_witness :
    (openFailDir.openErr = some ⟨"openat: (13) Permission denied"⟩ ∧
      iter_make (open_as_dir openFailDir)
        = .ok ({ hasStream := false, dirError := some ⟨"openat: (13) Permission denied"⟩,
                 d_ent := none, err_ := some ⟨"openat: (13) Permission denied"⟩ },
            ⟨[], none⟩)) ∧
    (parentTree.openErr = none ∧ parentTree.readErr = none ∧
      ∃ it s, iter_make (open_as_dir parentTree) = .ok (it, s) ∧
        it.d_ent = parentTree.children.find? (fun p => !(p.1 == "." || p.1 == "..")) ∧
        it.err_ = none) :=
  ⟨⟨rfl, (c7_iterator_construction openFailDir).1 _ rfl⟩,
    ⟨rfl, rfl, (c7_iterator_construction parentTree).2.2 rfl rfl⟩⟩

/-- C8: `begin()` on a non-directory entry is the canonical end
iterator: it compares equal to `end()` and driving it performs zero
iterations. -/
theorem c8_begin_non_dir (f : file_t) (h : f.is_dir = false) :
    file_t.begin f = .ok (file_t.endI f, ⟨[], none⟩) ∧
    iter_beq (file_t.endI f) (file_t.endI f) = true ∧
    iterDrain (file_t.endI f) ⟨[], none⟩ = ([], file_t.endI f) := by
  refine ⟨?_, rfl, ?_⟩
  · unfold file_t.begin
    rw [if_pos (by simp [h])]
    rfl
  · exact iterDrain_stop _ rfl

/-- Witness for C8 at a concrete input: a regular file. -/
theorem c8_witness :
    (file_t.construct leafFile "x").is_dir = false ∧
    file_t.begin (file_t.construct leafFile "x")
      = .ok (file_t.endI (file_t.construct leafFile "x"), ⟨[], none⟩) ∧
    iterDrain (file_t.endI (file_t.construct leafFile "x")) ⟨[], none⟩
      = ([], file_t.endI (file_t.construct leafFile "x")) :=
  ⟨rfl, (c8_begin_non_dir (file_t.construct leafFile "x") rfl).1,
    (c8_begin_non_dir (file_t.construct leafFile "x") rfl).2.2⟩

/-- C9: advancing an iterator throws exactly when its stream is absent
(the detected invariant violation), and the renderer never terminates
abnormally on any input: stat, open and readdir failures are data, so
`print_rec` always returns normally. -/
theorem c9_throw_only_on_null_stream :
    (∀ (it : iter_t) (s : RawStream),
      (∃ msg, iter_succ it s = Except.error msg) ↔ it.hasStream = false) ∧
    (∀ (node : file_t) (lines : List Bool) (first last : Bool) (depth : Int),
      ∃ out, print_rec node lines first last depth = Except.ok out) := by
  constructor
  · intro it s
    constructor
    · rintro ⟨msg, hm⟩
      cases hstr : it.hasStream with
      | false => rfl
      | true =>
        obtain ⟨a, b, hok⟩ := iter_succ_ok s hstr
        rw [hok] at hm
        exact absurd hm (by simp)
    · intro hf
      refine ⟨"++ on null dir", ?_⟩
      unfold iter_succ
      rw [if_pos (by simp [hf])]
  · exact render_ok.1

/-- C10 counterexample: dereferencing the canonical end iterator does
not reach the `d_name.value()` raise the claim describes; it hits the
null directory-stream dereference first. -/
theorem c10_counter :
    iter_end.d_name = none ∧
    iter_deref iter_end = derefRes.nullStream ∧
    derefRes.nullStream ≠ derefRes.badOptional :=
  ⟨rfl, rfl, fun h => nomatch h⟩

/-- C10 amended: dereferencing an iterator with no current name never
returns an Entry — when a stream is held (ordinary exhaustion) it
raises from the `d_name.value()` access, but the canonical end iterator
holds no stream and instead dereferences a null stream handle before
reaching `.value()`; a well-formed Entry is produced only when a stream
and a current name are both present. -/
theorem c10_deref_amended (it : iter_t) :
    (it.d_name = none → ∀ f, iter_deref it ≠ derefRes.ok f) ∧
    (it.d_name = none → it.hasStream = true → iter_deref it = derefRes.badOptional) ∧
    (it.hasStream = false → iter_deref it = derefRes.nullStream) ∧
    (∀ f, iter_deref it = derefRes.ok f →
      it.d_name.isSome = true ∧ it.hasStream = true) := by
  have hdn : it.d_name = none ↔ it.d_ent = none := by
    cases hd : it.d_ent <;> simp [iter_t.d_name, hd]
  refine ⟨?_, ?_, ?_, ?_⟩
  · intro h f
    unfold iter_deref
    cases hstr : it.hasStream with
    | false => simp
    | true =>
      rw [hdn] at h
      simp only [h]
      simp
  · intro h hstr
    unfold iter_deref
    rw [hdn] at h
    rw [if_neg (by simp [hstr])]
    simp only [h]
  · intro hstr
    unfold iter_deref
    rw [if_pos (by simp [hstr])]
  · intro f h
    unfold iter_deref at h
    cases hstr : it.hasStream with
    | false =>
      rw [if_pos (by simp [hstr])] at h
      exact absurd h (by simp)
    | true =>
      rw [if_neg (by simp [hstr])] at h
      cases hd : it.d_ent with
      | none =>
        rw [hd] at h
        exact absurd h (by simp)
      | some p =>
        refine ⟨?_, rfl⟩
        simp [iter_t.d_name, hd]

/-- Witness for C10's amended statement: an iterator at clean exhaustion
that still holds its stream raises from the `.value()` access. -/
theorem c10_witness :
    exhaustedIter.d_name = none ∧ exhaustedIter.hasStream = true ∧
    iter_deref exhaustedIter = derefRes.badOptional :=
  ⟨rfl, rfl, (c10_deref_amended exhaustedIter).2.1 rfl rfl⟩

/-- C3: for every tree and every non-negative user depth limit `d`,
rendering with that limit prints the root's own line plus exactly `d`
further levels below it — the output coincides with the unlimited
rendering of the tree truncated to `d` levels below the root.  In
particular `d = 0` prints only the root line, `d = 1` adds exactly the
immediate children, and the unlimited mode (`-1`) prints every level. -/
theorem c3_depth_limit (t : FsTree) (nm : String) (d : Int) (hd : 0 ≤ d) :
    print (file_t.construct t nm) (main_depth d)
      = print (file_t.construct (truncate (d + 1) t) nm) (main_depth (-1)) := by
  have h1 : main_depth d = d + 1 := by
    unfold main_depth
    rw [if_pos (show (d != (-1 : Int)) = true from by rw [bne_iff_ne]; omega)]
  have h2 : main_depth (-1) = -1 := rfl
  rw [h1, h2]
  unfold print
  exact trunc_print_aux (sizeOf t + 1) t (by omega) nm [] true true (d + 1) (by omega)

/-- Witness for C3: the chain `A/B/C/D.txt` rendered with user depth
limit 1 equals the unlimited rendering of its truncation to the root
plus one further level. -/
theorem c3_witness :
    (0 : Int) ≤ 1 ∧
    print (file_t.construct abcdTree "A") (main_depth 1)
      = print (file_t.construct (truncate (1 + 1) abcdTree) "A") (main_depth (-1)) :=
  ⟨by decide, c3_depth_limit abcdTree "A" 1 (by decide)⟩
end SparkyTree
